import Mathlib

/-!
Verification of `src/05-objects-tasks.js`: a shallow embedding of the
rectangle factory, the two JSON helpers (`getJSON`, `fromJSON`) and the CSS
selector builder (`MyCssSelector` / `cssSelectorBuilder`), together with
proofs about them.  Machine numbers are modelled as `Int` (JS number
arithmetic on the integral inputs these claims use), strings as `String` or
`List Char`, JS arrays as `List`, and object identity — where a claim is
about mutation — as addresses into an explicit heap.
-/

namespace CoreJs

/-! ## CSS selector builder (`MyCssSelector`)

A selector object owns `items`, an array of fragments; each fragment stores
the already-rendered text (`value`) and the numeric item type (`type`),
exactly as `MyCssSelector.add` pushes them. -/

/-- One entry of `this.items`: `{ value: <rendered text>, type: <ITEM_TYPES member> }`. -/
structure Item where
  value : String
  type : Nat
deriving Repr, DecidableEq

/-- Models `MyCssSelector.ITEM_TYPES.ELEMENT`. -/
def ELEMENT : Nat := 0
/-- Models `MyCssSelector.ITEM_TYPES.ID`. -/
def ID : Nat := 1
/-- Models `MyCssSelector.ITEM_TYPES.CLASS`. -/
def CLASS : Nat := 2
/-- Models `MyCssSelector.ITEM_TYPES.ATTR`. -/
def ATTR : Nat := 3
/-- Models `MyCssSelector.ITEM_TYPES.PSEUDO_CLASS`. -/
def PSEUDO_CLASS : Nat := 4
/-- Models `MyCssSelector.ITEM_TYPES.PSEUDO_ELEMENT`. -/
def PSEUDO_ELEMENT : Nat := 5
/-- Models `MyCssSelector.ITEM_TYPES.COMBINATOR`. -/
def COMBINATOR : Nat := 6
/-- Models `MyCssSelector.ITEM_TYPES.SELECTOR`. -/
def SELECTOR : Nat := 7

/-- The two throw sites of `MyCssSelector.validate`, named after the spec's
error taxonomy: the "should not occur more then one time" message and the
"should be arranged in the following order" message. -/
inductive SelErr where
  | DuplicateSelectorPartError
  | SelectorOrderError
deriving Repr, DecidableEq

/-- Models `this.disposableTypes = [T.ELEMENT, T.ID, T.PSEUDO_ELEMENT]` from the constructor. -/
def disposableTypes : List Nat := [ELEMENT, ID, PSEUDO_ELEMENT]

/-- Models `this.items.filter((item) => item.type === t).length`, the count
`validate` stores in `typesCounter` for each disposable type. -/
def countType (items : List Item) (t : Nat) : Nat :=
  (items.filter (fun item => item.type = t)).length

/-- Models `MyCssSelector.validate(type)`.  The reduce builds `typesCounter`, whose
entry for `type` is defined (and compared with `=== 1`) only when `type` is
disposable; then the last item, if any, is compared against `type`.  Returns
the thrown error, if any. -/
def validate (items : List Item) (t : Nat) : Option SelErr :=
  if t ∈ disposableTypes ∧ countType items t = 1 then
    some SelErr.DuplicateSelectorPartError
  else
    match items.getLast? with
    | some lastItem =>
      if t < lastItem.type then some SelErr.SelectorOrderError else none
    | none => none

/-- The `switch` of `MyCssSelector.add` computing `newValue` from a string
argument; the final branch covers `case T.ELEMENT: default:`. -/
def renderFragment (value : String) (t : Nat) : String :=
  if t = ID then "#" ++ value
  else if t = CLASS then "." ++ value
  else if t = ATTR then "[" ++ value ++ "]"
  else if t = PSEUDO_CLASS then ":" ++ value
  else if t = PSEUDO_ELEMENT then "::" ++ value
  else if t = COMBINATOR then " " ++ value ++ " "
  else value

/-- Models `MyCssSelector.add(value, type)` for a string `value` and `type ≠
T.SELECTOR` (every call the program makes except the second add inside
`combine`): `validate` runs first and a throw aborts the call before the
push, so the pair returned is the items array after the call together with
the thrown error, if any. -/
def addFrag (items : List Item) (value : String) (t : Nat) : List Item × Option SelErr :=
  match validate items t with
  | some e => (items, some e)
  | none => (items ++ [⟨renderFragment value t, t⟩], none)

/-- Models `MyCssSelector.add(value, type)` for `type === T.SELECTOR`, where `value`
is another selector object: validation is skipped and
`this.items.push(...value.items)` appends the argument's items verbatim. -/
def addSel (items : List Item) (arg : List Item) : List Item :=
  items ++ arg

/-- Models `MyCssSelector.stringify()`: `this.items.map(({ value }) => value).join('')`. -/
def stringify (items : List Item) : String :=
  String.join (items.map (fun item => item.value))

/-- Chaining helper: run `addFrag` under an already-possibly-failed chain,
propagating the first thrown error (a JS throw aborts the whole expression). -/
def thenAdd (r : Except SelErr (List Item)) (value : String) (t : Nat) :
    Except SelErr (List Item) :=
  match r with
  | .error e => .error e
  | .ok items =>
    match addFrag items value t with
    | (_, some e) => .error e
    | (items2, none) => .ok items2

/-- A facade call such as `cssSelectorBuilder.element(v)`: the facade's `add`
allocates a fresh `MyCssSelector` (empty items) and adds to it. -/
def startAdd (value : String) (t : Nat) : Except SelErr (List Item) :=
  thenAdd (.ok []) value t

/-- Models `stringify()` at the end of a chain. -/
def stringifyE (r : Except SelErr (List Item)) : Except SelErr String :=
  match r with
  | .error e => .error e
  | .ok items => .ok (stringify items)

/-! ### Heap model for `combine`

`combine` mutates `selector1` in place and reads `selector2`, so object
identity matters; selectors are addresses into a heap mapping each address
to its `items` array. -/

/-- A heap of selector objects: each address owns its `items` array. -/
abbrev SHeap := Nat → List Item

/-- Overwrite the items array owned by address `a`. -/
def hset (h : SHeap) (a : Nat) (items : List Item) : SHeap :=
  fun b => if b = a then items else h b

/-- Models `cssSelectorBuilder.combine(selector1, combinator, selector2)`:
`selector1.add(combinator, T.COMBINATOR).add(selector2, T.SELECTOR)`.
The first add validates `COMBINATOR` against `selector1`'s items and, on
success, pushes the space-padded combinator onto `selector1`; a throw
propagates and leaves the heap unchanged.  The second add skips validation
and pushes `selector2`'s items — read after the first mutation, which is
what makes aliasing visible — onto `selector1`.  The returned address is
`selector1`'s own (each `add` returns `this`). -/
def combine (h : SHeap) (s1 s2 : Nat) (comb : String) :
    Except SelErr (SHeap × Nat) :=
  match validate (h s1) COMBINATOR with
  | some e => .error e
  | none =>
    let h1 := hset h s1 (h s1 ++ [⟨renderFragment comb COMBINATOR, COMBINATOR⟩])
    let h2 := hset h1 s1 (h1 s1 ++ h1 s2)
    .ok (h2, s1)

/-- The items held at the address `combine` returns, when it succeeds. -/
def combineItems (h : SHeap) (s1 s2 : Nat) (comb : String) :
    Except SelErr (List Item) :=
  (combine h s1 s2 comb).map fun p => p.1 p.2

/-- The empty heap (every selector object starts with `items = []`). -/
def emptyHeap : SHeap := fun _ => []

/-! ### Concrete builders used by the examples and counterexamples -/

/-- Models `cssSelectorBuilder.element('a')` — a fresh selector holding one element fragment. -/
def exElemA : List Item := [⟨"a", ELEMENT⟩]

/-- Models `cssSelectorBuilder.element('b')`. -/
def exElemB : List Item := [⟨"b", ELEMENT⟩]

/-- The items of `combine(element('a'), '+', element('b'))` — contains two
`ELEMENT` fragments. -/
def exCombined : List Item := [⟨"a", ELEMENT⟩, ⟨" + ", COMBINATOR⟩, ⟨"b", ELEMENT⟩]

/-- The items of `element('a').id('x')`. -/
def exElemId : List Item := [⟨"a", ELEMENT⟩, ⟨"#x", ID⟩]

/-- A two-selector heap: address 0 holds `element('div').id('main')`,
address 1 holds `element('table').id('data')`. -/
def exHeapC3 : SHeap :=
  hset (hset emptyHeap 0 [⟨"div", ELEMENT⟩, ⟨"#main", ID⟩]) 1
    [⟨"table", ELEMENT⟩, ⟨"#data", ID⟩]

/-! ## Rectangle -/

/-- The object `Rectangle(width, height)` returns: two stored fields and a
`getArea` method reading them at call time. -/
structure RectangleObj where
  width : Int
  height : Int
deriving Repr, DecidableEq

/-- Models `function Rectangle(width, height) { return { width, height, getArea() {...} } }`. -/
def Rectangle (width height : Int) : RectangleObj :=
  ⟨width, height⟩

/-- Models `getArea() { return this.width * this.height; }` — recomputed from the
object's current fields at every call; no cached area exists. -/
def RectangleObj.getArea (r : RectangleObj) : Int :=
  r.width * r.height

/-- Caller-side mutation `r.width = w` (the object is a plain mutable JS object). -/
def RectangleObj.setWidth (r : RectangleObj) (w : Int) : RectangleObj :=
  ⟨w, r.height⟩

/-- Caller-side mutation `r.height = h`. -/
def RectangleObj.setHeight (r : RectangleObj) (h : Int) : RectangleObj :=
  ⟨r.width, h⟩

/-! ## JSON values

A JSON-representable JS value tree: `null`, booleans, numbers (the claims'
integral inputs; IEEE-754 fractional behaviour is out of scope), strings,
arrays and plain objects with own enumerable fields in enumeration order.
Strings are `List Char` to keep character-level reasoning direct. -/

/-- A JSON-representable JavaScript value. -/
inductive JsVal where
  | jnull
  | jbool (b : Bool)
  | jnum (n : Int)
  | jstr (s : List Char)
  | jarr (elems : List JsVal)
  | jobj (fields : List (List Char × JsVal))

mutual

/-- Node count of a value tree, the induction measure for parser proofs. -/
def sizeV : JsVal → Nat
  | .jnull => 1
  | .jbool _ => 1
  | .jnum _ => 1
  | .jstr _ => 1
  | .jarr xs => 1 + sizeL xs
  | .jobj fs => 1 + sizeF fs

/-- Total node count of a list of values. -/
def sizeL : List JsVal → Nat
  | [] => 0
  | v :: vs => sizeV v + sizeL vs

/-- Total node count of a field list. -/
def sizeF : List (List Char × JsVal) → Nat
  | [] => 0
  | (_, v) :: fs => sizeV v + sizeF fs

end

/-! ## Character-level encoding helpers -/

/-- Decimal digit character for `d < 10` (codes 48–57). -/
def digitCh (d : Nat) : Char := Char.ofNat (48 + d)

/-- Whether `c` is an ASCII decimal digit. -/
def isDigitCh (c : Char) : Bool := 48 ≤ c.toNat && c.toNat ≤ 57

/-- Numeric value of a decimal digit character. -/
def digitVal (c : Char) : Nat := c.toNat - 48

/-- Decimal digits of `n`, most significant first, with explicit fuel (any
fuel above `n` is enough, since `n / 10 < n` for `n ≥ 10`). -/
def natDigitsAux : Nat → Nat → List Char
  | 0, _ => []
  | fuel + 1, n =>
    if n < 10 then [digitCh n]
    else natDigitsAux fuel (n / 10) ++ [digitCh (n % 10)]

/-- Decimal digits of `n`, most significant first — the integer output format
of the reference JSON-text encoder. -/
def natDigits (n : Nat) : List Char := natDigitsAux (n + 1) n

/-- Integer rendering: optional minus sign then decimal digits. -/
def encInt (n : Int) : List Char :=
  if n < 0 then '-' :: natDigits (-n).toNat else natDigits n.toNat

/-- Lower-case hexadecimal digit character for `d < 16`. -/
def hexCh (d : Nat) : Char :=
  if d < 10 then Char.ofNat (48 + d) else Char.ofNat (87 + d)

/-- Whether `c` is a hexadecimal digit (either case). -/
def isHexCh (c : Char) : Bool :=
  (48 ≤ c.toNat && c.toNat ≤ 57) || (97 ≤ c.toNat && c.toNat ≤ 102) ||
    (65 ≤ c.toNat && c.toNat ≤ 70)

/-- Numeric value of a hexadecimal digit character. -/
def hexVal (c : Char) : Nat :=
  if c.toNat ≤ 57 then c.toNat - 48
  else if c.toNat ≤ 70 then c.toNat - 55
  else c.toNat - 87

/-- String escaping of one character, as `JSON.stringify` performs it: quote
and backslash get two-character escapes, the named control characters get
their short escapes, the remaining control characters get `\u00xx` with
lower-case hex, and every other character is emitted verbatim. -/
def escapeCh (c : Char) : List Char :=
  if c = '"' then ['\\', '"']
  else if c = '\\' then ['\\', '\\']
  else if c = '\x08' then ['\\', 'b']
  else if c = '\x0c' then ['\\', 'f']
  else if c = '\n' then ['\\', 'n']
  else if c = '\r' then ['\\', 'r']
  else if c = '\t' then ['\\', 't']
  else if c.toNat < 32 then
    ['\\', 'u', '0', '0', hexCh (c.toNat / 16), hexCh (c.toNat % 16)]
  else [c]

/-- Escaped string body followed by the closing quote. -/
def encStrBody : List Char → List Char
  | [] => ['"']
  | c :: cs => escapeCh c ++ encStrBody cs

/-- Rendering of a string value: opening quote, escaped body, closing quote. -/
def encStr (s : List Char) : List Char := '"' :: encStrBody s

/-! ## The encoder: `getJSON(obj) = JSON.stringify(obj)` on value trees -/

mutual

/-- Models `JSON.stringify` on an acyclic value tree: `null`/`true`/`false`
literals, decimal integers, quoted escaped strings, arrays as `[e1,e2,...]`
and objects as key–value pairs in field order between braces, with no
whitespace — the compact form `JSON.stringify` emits with no spacer
argument. -/
def encVal : JsVal → List Char
  | .jnull => ['n', 'u', 'l', 'l']
  | .jbool true => ['t', 'r', 'u', 'e']
  | .jbool false => ['f', 'a', 'l', 's', 'e']
  | .jnum n => encInt n
  | .jstr s => encStr s
  | .jarr xs => '[' :: encItemsA xs
  | .jobj fs => '\x7b' :: encItemsO fs

/-- Array elements, comma-separated, up to and including the closing bracket. -/
def encItemsA : List JsVal → List Char
  | [] => [']']
  | [v] => encVal v ++ [']']
  | v :: vs => encVal v ++ ',' :: encItemsA vs

/-- Object fields `"key":value`, comma-separated, up to and including the
closing brace. -/
def encItemsO : List (List Char × JsVal) → List Char
  | [] => ['\x7d']
  | [(k, v)] => encStr k ++ ':' :: encVal v ++ ['\x7d']
  | (k, v) :: fs => encStr k ++ ':' :: encVal v ++ ',' :: encItemsO fs

end

/-- Models `getJSON(obj)`, which is `JSON.stringify(obj)`, on acyclic value
trees (the inputs of the round-trip claim). -/
def getJSONTree (v : JsVal) : List Char := encVal v

/-! ## The decoder: standard interchange-format parsing (`JSON.parse`)

A recursive-descent parser over `List Char` for the compact JSON texts the
encoder emits (it accepts exactly the standard grammar restricted to integer
numbers and with no inter-token whitespace, which suffices for texts produced
by the encoder and for the concrete payloads in the claims).  `fuel` bounds
nesting and list length and only ever decreases on; the top-level entry point
supplies more fuel than the input length, which the round-trip proof shows is
never exhausted. -/

/-- Strip an expected literal tail (used for `null` / `true` / `false`). -/
def stripPre : List Char → List Char → Option (List Char)
  | [], cs => some cs
  | p :: ps, c :: cs => if c = p then stripPre ps cs else none
  | _ :: _, [] => none

/-- Whether the input begins with a decimal digit. -/
def digitStart : List Char → Bool
  | c :: _ => isDigitCh c
  | [] => false

/-- Whether the input begins with the given character. -/
def headIs (x : Char) : List Char → Bool
  | c :: _ => c = x
  | [] => false

/-- Greedy digit run, accumulating the decimal value. -/
def parseDigits (acc : Nat) : List Char → Nat × List Char
  | c :: cs =>
    if isDigitCh c then parseDigits (acc * 10 + digitVal c) cs else (acc, c :: cs)
  | [] => (acc, [])

/-- Parse an unsigned decimal integer (one or more digits). -/
def parseNat (cs : List Char) : Option (Nat × List Char) :=
  if digitStart cs then some (parseDigits 0 cs) else none

/-- Unescape a single-character escape sequence. -/
def unescCh (e : Char) : Option Char :=
  if e = '"' then some '"'
  else if e = '\\' then some '\\'
  else if e = '/' then some '/'
  else if e = 'b' then some '\x08'
  else if e = 'f' then some '\x0c'
  else if e = 'n' then some '\n'
  else if e = 'r' then some '\r'
  else if e = 't' then some '\t'
  else none

/-- Parse four hexadecimal digits of a `\uXXXX` escape into the character they
denote. -/
def parseHex4 : List Char → Option (Char × List Char)
  | h1 :: h2 :: h3 :: h4 :: rest =>
    if isHexCh h1 && isHexCh h2 && isHexCh h3 && isHexCh h4 then
      some (Char.ofNat
        (((hexVal h1 * 16 + hexVal h2) * 16 + hexVal h3) * 16 + hexVal h4), rest)
    else none
  | _ => none

/-- Parse a string body after the opening quote, handling escapes, through the
closing quote.  One unit of fuel is spent per produced character, so any fuel
above the source length is enough. -/
def parseStrBody : Nat → List Char → Option (List Char × List Char)
  | 0, _ => none
  | fuel + 1, cs =>
    match cs with
    | [] => none
    | c :: rest =>
      if c = '"' then some ([], rest)
      else if c = '\\' then
        match rest with
        | [] => none
        | e :: rest2 =>
          if e = 'u' then
            match parseHex4 rest2 with
            | some (u, rest3) =>
              match parseStrBody fuel rest3 with
              | some (s, r) => some (u :: s, r)
              | none => none
            | none => none
          else
            match unescCh e with
            | some u =>
              match parseStrBody fuel rest2 with
              | some (s, r) => some (u :: s, r)
              | none => none
            | none => none
      else
        match parseStrBody fuel rest with
        | some (s, r) => some (c :: s, r)
        | none => none

/-- Parse a complete string after its opening quote; the fuel above the input
length is always sufficient. -/
def parseStr (cs : List Char) : Option (List Char × List Char) :=
  parseStrBody (cs.length + 1) cs

mutual

/-- Parse one JSON value. -/
def parseVal : Nat → List Char → Option (JsVal × List Char)
  | 0, _ => none
  | fuel + 1, cs =>
    match cs with
    | [] => none
    | c :: rest =>
      if c = 'n' then
        match stripPre ['u', 'l', 'l'] rest with
        | some r => some (.jnull, r)
        | none => none
      else if c = 't' then
        match stripPre ['r', 'u', 'e'] rest with
        | some r => some (.jbool true, r)
        | none => none
      else if c = 'f' then
        match stripPre ['a', 'l', 's', 'e'] rest with
        | some r => some (.jbool false, r)
        | none => none
      else if c = '"' then
        match parseStr rest with
        | some (s, r) => some (.jstr s, r)
        | none => none
      else if c = '-' then
        match parseNat rest with
        | some (n, r) => some (.jnum (-(n : Int)), r)
        | none => none
      else if c = '[' then
        if headIs ']' rest then some (.jarr [], rest.drop 1)
        else
          match parseItemsA fuel rest with
          | some (vs, r) => some (.jarr vs, r)
          | none => none
      else if c = '\x7b' then
        if headIs '\x7d' rest then some (.jobj [], rest.drop 1)
        else
          match parseItemsO fuel rest with
          | some (fs, r) => some (.jobj fs, r)
          | none => none
      else
        match parseNat (c :: rest) with
        | some (n, r) => some (.jnum (n : Int), r)
        | none => none

/-- Parse one or more comma-separated array elements through the closing
bracket. -/
def parseItemsA : Nat → List Char → Option (List JsVal × List Char)
  | 0, _ => none
  | fuel + 1, cs =>
    match parseVal fuel cs with
    | none => none
    | some (v, rest) =>
      match rest with
      | ',' :: rest2 =>
        match parseItemsA fuel rest2 with
        | some (vs, r) => some (v :: vs, r)
        | none => none
      | ']' :: rest2 => some ([v], rest2)
      | _ => none

/-- Parse one or more comma-separated `"key":value` fields through the
closing brace. -/
def parseItemsO : Nat → List Char → Option (List (List Char × JsVal) × List Char)
  | 0, _ => none
  | fuel + 1, cs =>
    match cs with
    | '"' :: rest =>
      match parseStr rest with
      | some (k, r1) =>
        match r1 with
        | ':' :: r2 =>
          match parseVal fuel r2 with
          | some (v, r3) =>
            match r3 with
            | ',' :: r4 =>
              match parseItemsO fuel r4 with
              | some (fs, r5) => some ((k, v) :: fs, r5)
              | none => none
            | '\x7d' :: r4 => some ([(k, v)], r4)
            | _ => none
          | none => none
        | _ => none
      | none => none
    | _ => none

end

/-- Models `JSON.parse` of a complete text: the parse must consume the whole
input.  The fuel exceeds the input length, which is always sufficient. -/
def jsonParse (cs : List Char) : Option JsVal :=
  match parseVal (cs.length + 1) cs with
  | some (v, []) => some v
  | _ => none

/-! ## Models of `fromJSON` (claim C6) -/

/-- Own enumerable fields of a JS object, in enumeration order. -/
abbrev JFields := List (List Char × JsVal)

/-- Set one field on an object: overwrite in place if the name exists
(keeping its position, as JS property assignment does), else append. -/
def setField : JFields → List Char → JsVal → JFields
  | [], k, v => [(k, v)]
  | (k0, v0) :: fs, k, v =>
    if k0 = k then (k0, v) :: fs else (k0, v0) :: setField fs k v

/-- Models `Object.assign(target, source)`: copy every own enumerable field of
`source` onto `target` in enumeration order. -/
def objAssign (target source : JFields) : JFields :=
  source.foldl (fun t kv => setField t kv.1 kv.2) target

/-- Field lookup by name. -/
def lookupF (fs : JFields) (k : List Char) : Option JsVal :=
  match fs with
  | [] => none
  | (k0, v0) :: fs => if k0 = k then some v0 else lookupF fs k

/-- Models `fromJSON(proto, json)` for an object payload (the operation's
documented use): `new proto.constructor()` yields the template kind's
default-constructed own fields, `JSON.parse(json)` parses the text, and
`Object.assign` copies the parsed fields over.  Yields `none` when the text
is malformed or not an object. -/
def fromJSON (defaultFields : JFields) (json : List Char) : Option JFields :=
  match jsonParse json with
  | some (.jobj parsed) => some (objAssign defaultFields parsed)
  | _ => none

/-- Concrete text for the C6 counterexample: the object `«x: 2»` rendered by
the encoder (so the text is well-formed by construction). -/
def c6text : List Char := encVal (.jobj [(['x'], .jnum 2)])

/-- Default-constructed fields of a template kind whose constructor
initializes a field `r` to `1`. -/
def c6defaults : JFields := [(['r'], .jnum 1)]

/-! ## Object-graph model of `getJSON` = `JSON.stringify` (claim C7)

Cyclic references cannot exist in an inductive value tree, so the cycle
behaviour of `JSON.stringify` is modelled on an explicit object graph: a heap
of addressed nodes whose fields and slots hold references. -/

/-- A reference held in an object field or array slot: primitives inline,
pointers to heap objects, and the non-representable leaves (a function value
and `undefined`). -/
inductive Ref where
  | rnull
  | rbool (b : Bool)
  | rnum (n : Int)
  | rstr (s : List Char)
  | rfunc
  | rundef
  | rptr (a : Nat)
deriving Repr, DecidableEq

/-- A heap node: an array of references or a plain object with named
references. -/
inductive HNode where
  | harr (elems : List Ref)
  | hobj (fields : List (List Char × Ref))

/-- An object heap: addresses paired with their nodes. -/
abbrev JHeap := List (Nat × HNode)

/-- Address lookup (first binding wins). -/
def lookupH : JHeap → Nat → Option HNode
  | [], _ => none
  | (a0, n0) :: h, a => if a0 = a then some n0 else lookupH h a

/-- The failure modes of the serializer model: `cyclic` models the `TypeError`
that `JSON.stringify` throws on circular structure; `fuelOut` is a modelling
artifact which sufficient fuel (more than the heap size) never produces. -/
inductive SErr where
  | cyclic
  | fuelOut
deriving Repr, DecidableEq

/-- Comma-join pre-rendered pieces. -/
def joinComma : List (List Char) → List Char
  | [] => []
  | [p] => p
  | p :: ps => p ++ ',' :: joinComma ps

mutual

/-- Models one step of `JSON.stringify`'s recursive serialization on the
object-graph model.  `stack` holds the addresses currently being serialized
(the ancestor set the algorithm uses to detect circular structure: meeting
one of them again raises).  The result `.ok none` is the `undefined` result:
the value (a function or `undefined`) is not representable.  Primitive
leaves render through the same text forms as the tree encoder. -/
def serRef (h : JHeap) : Nat → List Nat → Ref → Except SErr (Option (List Char))
  | _, _, .rnull => .ok (some ['n', 'u', 'l', 'l'])
  | _, _, .rbool true => .ok (some ['t', 'r', 'u', 'e'])
  | _, _, .rbool false => .ok (some ['f', 'a', 'l', 's', 'e'])
  | _, _, .rnum n => .ok (some (encInt n))
  | _, _, .rstr s => .ok (some (encStr s))
  | _, _, .rfunc => .ok none
  | _, _, .rundef => .ok none
  | fuel, stack, .rptr a =>
    if a ∈ stack then .error .cyclic
    else
      match fuel with
      | 0 => .error .fuelOut
      | fuel + 1 =>
        match lookupH h a with
        | none => .ok none
        | some (.harr es) =>
          match serArr h fuel (a :: stack) es with
          | .ok parts => .ok (some ('[' :: joinComma parts ++ [']']))
          | .error e => .error e
        | some (.hobj fs) =>
          match serFields h fuel (a :: stack) fs with
          | .ok parts => .ok (some ('\x7b' :: joinComma parts ++ ['\x7d']))
          | .error e => .error e

/-- Array elements: a non-representable element renders as `null`. -/
def serArr (h : JHeap) : Nat → List Nat → List Ref → Except SErr (List (List Char))
  | _, _, [] => .ok []
  | fuel, stack, r :: rs =>
    match serRef h fuel stack r with
    | .error e => .error e
    | .ok none =>
      match serArr h fuel stack rs with
      | .ok parts => .ok (['n', 'u', 'l', 'l'] :: parts)
      | .error e => .error e
    | .ok (some cs) =>
      match serArr h fuel stack rs with
      | .ok parts => .ok (cs :: parts)
      | .error e => .error e

/-- Object fields: a field holding a non-representable value is omitted. -/
def serFields (h : JHeap) : Nat → List Nat → List (List Char × Ref) →
    Except SErr (List (List Char))
  | _, _, [] => .ok []
  | fuel, stack, (k, r) :: rs =>
    match serRef h fuel stack r with
    | .error e => .error e
    | .ok none => serFields h fuel stack rs
    | .ok (some cs) =>
      match serFields h fuel stack rs with
      | .ok parts => .ok ((encStr k ++ ':' :: cs) :: parts)
      | .error e => .error e

end

/-- Models `getJSON(obj)`, which is `JSON.stringify(obj)`, on the object-graph
model; the fuel exceeds the heap size, which is always sufficient because the
ancestor stack never repeats an address. -/
def getJSON (h : JHeap) (r : Ref) : Except SErr (Option (List Char)) :=
  serRef h (h.length + 1) [] r

/-- References held by a node. -/
def nodeRefs : HNode → List Ref
  | .harr es => es
  | .hobj fs => fs.map Prod.snd

/-- One reference step: the object at `a` holds a pointer to `b`. -/
def edgeTo (h : JHeap) (a b : Nat) : Prop :=
  ∃ n, lookupH h a = some n ∧ Ref.rptr b ∈ nodeRefs n

/-- Reflexive-transitive reachability along object references. -/
inductive ReachA (h : JHeap) : Nat → Nat → Prop where
  | refl (a : Nat) : ReachA h a a
  | step {a b c : Nat} : edgeTo h a b → ReachA h b c → ReachA h a c

/-- The value `r` contains a cyclic reference: some address reachable from it
can step back to itself. -/
def HasCycle (h : JHeap) (r : Ref) : Prop :=
  ∃ a0 a b, r = Ref.rptr a0 ∧ ReachA h a0 a ∧ edgeTo h a b ∧ ReachA h b a

/-- A one-object heap whose object refers to itself through its field `s`. -/
def cycHeap : JHeap := [(0, HNode.hobj [(['s'], Ref.rptr 0)])]

/-! ## Helper lemmas about the selector builder -/

theorem addFrag_snd (items : List Item) (value : String) (t : Nat) :
    (addFrag items value t).2 = validate items t := by
  unfold addFrag
  cases validate items t <;> rfl

theorem addFrag_fst_of_ok (items : List Item) (value : String) (t : Nat)
    (h : (addFrag items value t).2 = none) :
    (addFrag items value t).1 = items ++ [⟨renderFragment value t, t⟩] := by
  unfold addFrag at *
  cases hv : validate items t with
  | none => rfl
  | some e => rw [hv] at h; exact Option.noConfusion h

theorem stringify_append (items : List Item) (i : Item) :
    stringify (items ++ [i]) = stringify items ++ i.value := by
  simp [stringify, String.join, List.foldl_append]

theorem validate_dup (items : List Item) (t : Nat)
    (hd : t ∈ disposableTypes ∧ countType items t = 1) :
    validate items t = some SelErr.DuplicateSelectorPartError := by
  unfold validate
  rw [if_pos hd]

theorem validate_last_none (items : List Item) (t : Nat)
    (hl : items.getLast? = none)
    (hnd : ¬(t ∈ disposableTypes ∧ countType items t = 1)) :
    validate items t = none := by
  unfold validate
  rw [if_neg hnd, hl]

theorem validate_last_some (items : List Item) (t : Nat) (lastI : Item)
    (hl : items.getLast? = some lastI)
    (hnd : ¬(t ∈ disposableTypes ∧ countType items t = 1)) :
    validate items t =
      if t < lastI.type then some SelErr.SelectorOrderError else none := by
  unfold validate
  rw [if_neg hnd, hl]

theorem validate_combinator_none (items : List Item)
    (hwf : ∀ i ∈ items, i.type ≤ COMBINATOR) :
    validate items COMBINATOR = none := by
  have hnd : ¬(COMBINATOR ∈ disposableTypes ∧ countType items COMBINATOR = 1) :=
    fun hand => absurd hand.1 (by decide)
  cases hl : items.getLast? with
  | none => exact validate_last_none items COMBINATOR hl hnd
  | some lastI =>
    rw [validate_last_some items COMBINATOR lastI hl hnd]
    have hmem : lastI ∈ items := by
      obtain ⟨hne, heq⟩ :=
        List.mem_getLast?_eq_getLast (l := items) (x := lastI) (by rw [hl]; rfl)
      rw [heq]
      exact List.getLast_mem hne
    rw [if_neg (Nat.not_lt.mpr (hwf lastI hmem))]

theorem combine_ok (h : SHeap) (s1 s2 : Nat) (comb : String) (hne : s1 ≠ s2)
    (hwf : ∀ i ∈ h s1, i.type ≤ COMBINATOR) :
    ∃ h2 : SHeap, combine h s1 s2 comb = .ok (h2, s1)
      ∧ h2 s1 = h s1 ++ ⟨" " ++ comb ++ " ", COMBINATOR⟩ :: h s2
      ∧ h2 s2 = h s2 := by
  unfold combine
  rw [validate_combinator_none (h s1) hwf]
  refine ⟨_, rfl, ?_, ?_⟩
  · show hset _ s1 _ s1 = _
    unfold hset
    rw [if_pos rfl, if_pos rfl, if_neg (Ne.symm hne)]
    have : renderFragment comb COMBINATOR = " " ++ comb ++ " " := rfl
    rw [this, List.append_assoc]
    rfl
  · show hset _ s1 _ s2 = _
    unfold hset
    rw [if_neg (Ne.symm hne), if_neg (Ne.symm hne)]

/-! ## Theorems for the selector-builder claims -/

/-- C1 counterexample: in `combine(element('a'), '+', element('b'))` the merged
builder holds two `ELEMENT` fragments, so `validate`'s `typesCounter[type] === 1`
test fails, and a further `element('c')` append succeeds even though fragments
of kind `ELEMENT` (a singleton kind) already exist in the sequence — the claim
says such an append always fails with `DuplicateSelectorPartError`. -/
theorem cssb_c1_counterexample :
    startAdd "a" ELEMENT = .ok exElemA
    ∧ startAdd "b" ELEMENT = .ok exElemB
    ∧ combineItems (hset (hset emptyHeap 0 exElemA) 1 exElemB) 0 1 "+" = .ok exCombined
    ∧ ELEMENT ∈ disposableTypes
    ∧ (⟨"a", ELEMENT⟩ : Item) ∈ exCombined
    ∧ addFrag exCombined "c" ELEMENT = (exCombined ++ [⟨"c", ELEMENT⟩], none) := by
  exact ⟨rfl, rfl, rfl, by decide, by decide, rfl⟩

/-- C1 (amended): an append of a singleton kind (ELEMENT, ID, PSEUDO_ELEMENT)
fails with `DuplicateSelectorPartError` exactly when the builder currently holds
exactly one fragment of that kind; with two or more (possible only through
`combine`) the duplicate check passes.  In particular appending `id`, `element`
or `pseudoElement` twice directly always fails. -/
theorem cssb_add_duplicate_iff (items : List Item) (value : String) (t : Nat)
    (ht : t ∈ disposableTypes) :
    (addFrag items value t).2 = some SelErr.DuplicateSelectorPartError ↔
      countType items t = 1 := by
  rw [addFrag_snd]
  by_cases hc : countType items t = 1
  · rw [validate_dup items t ⟨ht, hc⟩]
    simp [hc]
  · have hnd : ¬(t ∈ disposableTypes ∧ countType items t = 1) := fun hand => hc hand.2
    constructor
    · intro hcontra
      exfalso
      cases hl : items.getLast? with
      | none =>
        rw [validate_last_none items t hl hnd] at hcontra
        exact Option.noConfusion hcontra
      | some lastI =>
        rw [validate_last_some items t lastI hl hnd] at hcontra
        by_cases ho : t < lastI.type
        · rw [if_pos ho] at hcontra
          exact SelErr.noConfusion (Option.some.inj hcontra)
        · rw [if_neg ho] at hcontra
          exact Option.noConfusion hcontra
    · intro hcount
      exact absurd hcount hc

/-- Witness for `cssb_add_duplicate_iff` at a concrete input: a builder already
holding one `ID` fragment. -/
theorem cssb_add_duplicate_iff_witness :
    ID ∈ disposableTypes ∧
      ((addFrag [⟨"#a", ID⟩] "a" ID).2 = some SelErr.DuplicateSelectorPartError ↔
        countType [⟨"#a", ID⟩] ID = 1) :=
  ⟨by decide, cssb_add_duplicate_iff [⟨"#a", ID⟩] "a" ID (by decide)⟩

/-- C2 counterexample: on `element('a').id('x')` a further `element('b')` append
is of a kind strictly earlier than the last fragment's kind (`ELEMENT < ID`),
yet the code fails with the duplicate error, not `SelectorOrderError`, because
`validate` runs the singleton check first. -/
theorem cssb_c2_counterexample :
    startAdd "a" ELEMENT = .ok exElemA
    ∧ thenAdd (.ok exElemA) "x" ID = .ok exElemId
    ∧ ELEMENT < ID
    ∧ exElemId.getLast? = some ⟨"#x", ID⟩
    ∧ (addFrag exElemId "b" ELEMENT).2 = some SelErr.DuplicateSelectorPartError
    ∧ (addFrag exElemId "b" ELEMENT).2 ≠ some SelErr.SelectorOrderError := by
  exact ⟨rfl, rfl, by decide, rfl, rfl, by decide⟩

/-- C2 (amended): appending a fragment of a kind strictly earlier than the last
fragment's kind fails with `SelectorOrderError` provided the singleton-duplicate
check (which runs first) does not fire; appending a kind equal to or later than
the last fragment's kind never produces `SelectorOrderError`. -/
theorem cssb_add_order_check (items : List Item) (value : String) (t : Nat)
    (lastI : Item) (hlast : items.getLast? = some lastI) :
    (t < lastI.type → ¬(t ∈ disposableTypes ∧ countType items t = 1) →
        (addFrag items value t).2 = some SelErr.SelectorOrderError)
    ∧ (lastI.type ≤ t →
        (addFrag items value t).2 ≠ some SelErr.SelectorOrderError) := by
  rw [addFrag_snd]
  constructor
  · intro hlt hnd
    rw [validate_last_some items t lastI hlast hnd, if_pos hlt]
  · intro hle hcontra
    by_cases hd : t ∈ disposableTypes ∧ countType items t = 1
    · rw [validate_dup items t hd] at hcontra
      exact SelErr.noConfusion (Option.some.inj hcontra)
    · rw [validate_last_some items t lastI hlast hd,
        if_neg (Nat.not_lt.mpr hle)] at hcontra
      exact Option.noConfusion hcontra

/-- Witness for `cssb_add_order_check`: appending after `element('a').id('x')`. -/
theorem cssb_add_order_check_witness :
    exElemId.getLast? = some ⟨"#x", ID⟩ ∧
      ((ELEMENT < (⟨"#x", ID⟩ : Item).type →
          ¬(ELEMENT ∈ disposableTypes ∧ countType exElemId ELEMENT = 1) →
          (addFrag exElemId "b" ELEMENT).2 = some SelErr.SelectorOrderError)
        ∧ ((⟨"#x", ID⟩ : Item).type ≤ ELEMENT →
          (addFrag exElemId "b" ELEMENT).2 ≠ some SelErr.SelectorOrderError)) :=
  ⟨rfl, cssb_add_order_check exElemId "b" ELEMENT ⟨"#x", ID⟩ rfl⟩

/-- C3: for distinct, validly built selectors, `combine(L, t, R)` succeeds and
the returned builder's sequence is L's fragments, one combinator fragment
rendering as a single space plus the token plus a single space, then R's
fragments verbatim; and the documented example stringifies as claimed. -/
theorem cssb_combine_correct :
    (∀ (h : SHeap) (s1 s2 : Nat) (comb : String), s1 ≠ s2 →
        (∀ i ∈ h s1, i.type ≤ COMBINATOR) →
        ∃ h2 : SHeap, combine h s1 s2 comb = .ok (h2, s1)
          ∧ h2 s1 = h s1 ++ ⟨" " ++ comb ++ " ", COMBINATOR⟩ :: h s2)
    ∧ stringifyE (combineItems exHeapC3 0 1 "+") = .ok "div#main + table#data" := by
  constructor
  · intro h s1 s2 comb hne hwf
    obtain ⟨h2, hcomb, hs1, _⟩ := combine_ok h s1 s2 comb hne hwf
    exact ⟨h2, hcomb, hs1⟩
  · rfl

/-- Witness for `cssb_combine_correct` at the two-selector heap of the example. -/
theorem cssb_combine_correct_witness :
    ∃ h2 : SHeap, combine exHeapC3 0 1 "+" = .ok (h2, 0)
      ∧ h2 0 = exHeapC3 0 ++ ⟨" " ++ "+" ++ " ", COMBINATOR⟩ :: exHeapC3 1 :=
  cssb_combine_correct.1 exHeapC3 0 1 "+" (by decide) (by decide)

/-- C10: `combine(L, t, R)` on distinct, validly built selectors returns the very
address of `L` (mutated in place to hold the merged sequence) and leaves `R`'s
own fragment sequence — and hence `R.stringify()` — unchanged. -/
theorem cssb_combine_frame :
    ∀ (h : SHeap) (s1 s2 : Nat) (comb : String), s1 ≠ s2 →
      (∀ i ∈ h s1, i.type ≤ COMBINATOR) →
      ∃ h2 : SHeap, combine h s1 s2 comb = .ok (h2, s1)
        ∧ h2 s1 = h s1 ++ ⟨" " ++ comb ++ " ", COMBINATOR⟩ :: h s2
        ∧ h2 s2 = h s2
        ∧ stringify (h2 s2) = stringify (h s2) := by
  intro h s1 s2 comb hne hwf
  obtain ⟨h2, hcomb, hs1, hs2⟩ := combine_ok h s1 s2 comb hne hwf
  exact ⟨h2, hcomb, hs1, hs2, by rw [hs2]⟩

/-- Witness for `cssb_combine_frame` at the example heap. -/
theorem cssb_combine_frame_witness :
    ∃ h2 : SHeap, combine exHeapC3 0 1 "+" = .ok (h2, 0)
      ∧ h2 0 = exHeapC3 0 ++ ⟨" " ++ "+" ++ " ", COMBINATOR⟩ :: exHeapC3 1
      ∧ h2 1 = exHeapC3 1
      ∧ stringify (h2 1) = stringify (exHeapC3 1) :=
  cssb_combine_frame exHeapC3 0 1 "+" (by decide) (by decide)

/-- C4: `stringify()` concatenates the rendered fragment texts in insertion
order with no separators; each successful append contributes `#name` for id,
`.name` for class, `[expr]` for attribute, `:name` for pseudo-class, `::name`
for pseudo-element and the bare name for element; and the two documented
examples stringify as claimed. -/
theorem cssb_stringify_renders :
    (∀ (items : List Item) (name : String), (addFrag items name ID).2 = none →
        stringify (addFrag items name ID).1 = stringify items ++ "#" ++ name)
    ∧ (∀ (items : List Item) (name : String), (addFrag items name CLASS).2 = none →
        stringify (addFrag items name CLASS).1 = stringify items ++ "." ++ name)
    ∧ (∀ (items : List Item) (expr : String), (addFrag items expr ATTR).2 = none →
        stringify (addFrag items expr ATTR).1 = stringify items ++ "[" ++ expr ++ "]")
    ∧ (∀ (items : List Item) (name : String), (addFrag items name PSEUDO_CLASS).2 = none →
        stringify (addFrag items name PSEUDO_CLASS).1 = stringify items ++ ":" ++ name)
    ∧ (∀ (items : List Item) (name : String), (addFrag items name PSEUDO_ELEMENT).2 = none →
        stringify (addFrag items name PSEUDO_ELEMENT).1 = stringify items ++ "::" ++ name)
    ∧ (∀ (items : List Item) (name : String), (addFrag items name ELEMENT).2 = none →
        stringify (addFrag items name ELEMENT).1 = stringify items ++ name)
    ∧ stringifyE (thenAdd (thenAdd (startAdd "main" ID) "container" CLASS) "editable" CLASS)
        = .ok "#main.container.editable"
    ∧ stringifyE (thenAdd (thenAdd (startAdd "a" ELEMENT) "href$=\".png\"" ATTR)
          "focus" PSEUDO_CLASS)
        = .ok "a[href$=\".png\"]:focus" := by
  refine ⟨?_, ?_, ?_, ?_, ?_, ?_, rfl, rfl⟩ <;>
    · intro items s hok
      rw [addFrag_fst_of_ok items s _ hok, stringify_append]
      simp [renderFragment, ELEMENT, ID, CLASS, ATTR, PSEUDO_CLASS, PSEUDO_ELEMENT,
        COMBINATOR, String.append_assoc]

/-- Witness for `cssb_stringify_renders`: appending `id('main')` to a fresh builder. -/
theorem cssb_stringify_renders_witness :
    (addFrag [] "main" ID).2 = none ∧
      stringify (addFrag [] "main" ID).1 = stringify [] ++ "#" ++ "main" :=
  ⟨rfl, cssb_stringify_renders.1 [] "main" rfl⟩

/-- C5: a rejected append (`DuplicateSelectorPartError` or `SelectorOrderError`)
leaves the fragment sequence exactly as before the call — `validate` throws
before the push, so no partial mutation happens. -/
theorem cssb_add_no_partial_mutation :
    ∀ (items : List Item) (value : String) (t : Nat) (e : SelErr),
      (addFrag items value t).2 = some e → (addFrag items value t).1 = items := by
  intro items value t e hfail
  unfold addFrag at *
  cases hv : validate items t with
  | none => rw [hv] at hfail; exact Option.noConfusion hfail
  | some e2 => rfl

/-- Witness for `cssb_add_no_partial_mutation`: the rejected `element('b')`
append on `element('a').id('x')`. -/
theorem cssb_add_no_partial_mutation_witness :
    (addFrag exElemId "b" ELEMENT).2 = some SelErr.DuplicateSelectorPartError ∧
      (addFrag exElemId "b" ELEMENT).1 = exElemId :=
  ⟨rfl, cssb_add_no_partial_mutation exElemId "b" ELEMENT
    SelErr.DuplicateSelectorPartError rfl⟩

/-- C9: `Rectangle(w, h)` stores both fields and `getArea()` returns the product
of the object's current fields at the moment of the call: `w * h` initially,
and after a caller mutates `width` or `height` the recomputed product — no
cached area exists. -/
theorem rectangle_getArea :
    ∀ w h : Int,
      (Rectangle w h).width = w
      ∧ (Rectangle w h).height = h
      ∧ (Rectangle w h).getArea = w * h
      ∧ (∀ w2, ((Rectangle w h).setWidth w2).getArea = w2 * h)
      ∧ (∀ h2, ((Rectangle w h).setHeight h2).getArea = w * h2) := by
  intro w h
  exact ⟨rfl, rfl, rfl, fun w2 => rfl, fun h2 => rfl⟩

/-! ## Round-trip lemmas: decimal digits -/

theorem digitCh_digit : ∀ d : Nat, d < 10 → isDigitCh (digitCh d) = true := by decide

theorem digitVal_digitCh : ∀ d : Nat, d < 10 → digitVal (digitCh d) = d := by decide

theorem natDigitsAux_head : ∀ fuel n, n < fuel →
    ∃ c cs, natDigitsAux fuel n = c :: cs ∧ isDigitCh c = true := by
  intro fuel
  induction fuel with
  | zero => intro n h; omega
  | succ fuel ih =>
    intro n h
    by_cases h10 : n < 10
    · exact ⟨digitCh n, [], by simp [natDigitsAux, h10], digitCh_digit n h10⟩
    · obtain ⟨c, cs, hcons, hdig⟩ := ih (n / 10) (by omega)
      exact ⟨c, cs ++ [digitCh (n % 10)], by simp [natDigitsAux, h10, hcons], hdig⟩

theorem natDigits_head (n : Nat) :
    ∃ c cs, natDigits n = c :: cs ∧ isDigitCh c = true :=
  natDigitsAux_head (n + 1) n (by omega)

theorem parseDigits_digit (acc : Nat) (c : Char) (cs : List Char)
    (hc : isDigitCh c = true) :
    parseDigits acc (c :: cs) = parseDigits (acc * 10 + digitVal c) cs := by
  simp [parseDigits, hc]

theorem parseDigits_stop (acc : Nat) (cs : List Char) (h : digitStart cs = false) :
    parseDigits acc cs = (acc, cs) := by
  cases cs with
  | nil => rfl
  | cons c cs2 =>
    have hc : isDigitCh c = false := by simpa [digitStart] using h
    simp [parseDigits, hc]

theorem parseDigits_natDigitsAux : ∀ fuel n, n < fuel → ∀ acc rest,
    parseDigits acc (natDigitsAux fuel n ++ rest) =
      parseDigits (acc * 10 ^ (natDigitsAux fuel n).length + n) rest := by
  intro fuel
  induction fuel with
  | zero => intro n h; omega
  | succ fuel ih =>
    intro n h acc rest
    by_cases h10 : n < 10
    · simp only [natDigitsAux, if_pos h10, List.singleton_append, List.length_cons,
        List.length_nil]
      rw [parseDigits_digit _ _ _ (digitCh_digit n h10), digitVal_digitCh n h10]
      norm_num
    · simp only [natDigitsAux, if_neg h10, List.append_assoc, List.singleton_append,
        List.length_append, List.length_cons, List.length_nil]
      rw [ih (n / 10) (by omega), parseDigits_digit _ _ _ (digitCh_digit (n % 10) (by omega)),
        digitVal_digitCh (n % 10) (by omega)]
      congr 1
      have hdm : 10 * (n / 10) + n % 10 = n := Nat.div_add_mod n 10
      calc (acc * 10 ^ (natDigitsAux fuel (n / 10)).length + n / 10) * 10 + n % 10
          = acc * (10 ^ (natDigitsAux fuel (n / 10)).length * 10) +
              (10 * (n / 10) + n % 10) := by ring
        _ = acc * 10 ^ ((natDigitsAux fuel (n / 10)).length + (0 + 1)) + n := by
              rw [hdm, pow_succ]

theorem parseNat_natDigits (n : Nat) (rest : List Char)
    (hrest : digitStart rest = false) :
    parseNat (natDigits n ++ rest) = some (n, rest) := by
  obtain ⟨c, cs, hcons, hdig⟩ := natDigits_head n
  have hds : digitStart (natDigits n ++ rest) = true := by
    rw [hcons, List.cons_append]
    simpa [digitStart] using hdig
  unfold parseNat
  rw [if_pos hds]
  unfold natDigits
  rw [parseDigits_natDigitsAux (n + 1) n (by omega), parseDigits_stop _ _ hrest]
  norm_num

/-! ## Round-trip lemmas: strings -/

theorem hexCh_lemmas : ∀ d : Nat, d < 16 →
    isHexCh (hexCh d) = true ∧ hexVal (hexCh d) = d := by decide

theorem escapeCh_ne_nil (c : Char) : escapeCh c ≠ [] := by
  unfold escapeCh
  split_ifs <;> simp

theorem length_lt_encStrBody (s : List Char) : s.length < (encStrBody s).length := by
  induction s with
  | nil => simp [encStrBody]
  | cons c cs ih =>
    simp only [encStrBody, List.length_append, List.length_cons]
    have hpos : 0 < (escapeCh c).length := List.length_pos.mpr (escapeCh_ne_nil c)
    omega

theorem parseStrBody_enc : ∀ (s : List Char) (fuel : Nat) (rest : List Char),
    s.length < fuel →
    parseStrBody fuel (encStrBody s ++ rest) = some (s, rest) := by
  intro s
  induction s with
  | nil =>
    intro fuel rest hf
    cases fuel with
    | zero => omega
    | succ fuel => rfl
  | cons c cs ih =>
    intro fuel rest hf
    cases fuel with
    | zero => omega
    | succ fuel =>
    have hrec : parseStrBody fuel (encStrBody cs ++ rest) = some (cs, rest) := by
      apply ih
      simpa using Nat.lt_of_succ_lt_succ hf
    show parseStrBody (fuel + 1) ((escapeCh c ++ encStrBody cs) ++ rest) = some (c :: cs, rest)
    rw [List.append_assoc]
    by_cases h1 : c = '"'
    · subst h1
      rw [show escapeCh '"' = ['\\', '"'] from rfl, List.cons_append, List.cons_append,
        show ∀ tail, parseStrBody (fuel + 1) ('\\' :: '"' :: tail) =
            match parseStrBody fuel tail with
            | some (s2, r) => some ('"' :: s2, r)
            | none => none from fun _ => rfl, List.nil_append, hrec]
    · by_cases h2 : c = '\\'
      · subst h2
        rw [show escapeCh '\\' = ['\\', '\\'] from rfl, List.cons_append, List.cons_append,
          show ∀ tail, parseStrBody (fuel + 1) ('\\' :: '\\' :: tail) =
              match parseStrBody fuel tail with
              | some (s2, r) => some ('\\' :: s2, r)
              | none => none from fun _ => rfl, List.nil_append, hrec]
      · by_cases h3 : c = '\x08'
        · subst h3
          rw [show escapeCh '\x08' = ['\\', 'b'] from rfl, List.cons_append, List.cons_append,
            show ∀ tail, parseStrBody (fuel + 1) ('\\' :: 'b' :: tail) =
                match parseStrBody fuel tail with
                | some (s2, r) => some ('\x08' :: s2, r)
                | none => none from fun _ => rfl, List.nil_append, hrec]
        · by_cases h4 : c = '\x0c'
          · subst h4
            rw [show escapeCh '\x0c' = ['\\', 'f'] from rfl, List.cons_append,
              List.cons_append,
              show ∀ tail, parseStrBody (fuel + 1) ('\\' :: 'f' :: tail) =
                  match parseStrBody fuel tail with
                  | some (s2, r) => some ('\x0c' :: s2, r)
                  | none => none from fun _ => rfl, List.nil_append, hrec]
          · by_cases h5 : c = '\n'
            · subst h5
              rw [show escapeCh '\n' = ['\\', 'n'] from rfl, List.cons_append,
                List.cons_append,
                show ∀ tail, parseStrBody (fuel + 1) ('\\' :: 'n' :: tail) =
                    match parseStrBody fuel tail with
                    | some (s2, r) => some ('\n' :: s2, r)
                    | none => none from fun _ => rfl, List.nil_append, hrec]
            · by_cases h6 : c = '\r'
              · subst h6
                rw [show escapeCh '\r' = ['\\', 'r'] from rfl, List.cons_append,
                  List.cons_append,
                  show ∀ tail, parseStrBody (fuel + 1) ('\\' :: 'r' :: tail) =
                      match parseStrBody fuel tail with
                      | some (s2, r) => some ('\r' :: s2, r)
                      | none => none from fun _ => rfl, List.nil_append, hrec]
              · by_cases h7 : c = '\t'
                · subst h7
                  rw [show escapeCh '\t' = ['\\', 't'] from rfl, List.cons_append,
                    List.cons_append,
                    show ∀ tail, parseStrBody (fuel + 1) ('\\' :: 't' :: tail) =
                        match parseStrBody fuel tail with
                        | some (s2, r) => some ('\t' :: s2, r)
                        | none => none from fun _ => rfl, List.nil_append, hrec]
                · by_cases h8 : c.toNat < 32
                  · -- the \u00xx case
                    have hesc : escapeCh c =
                        ['\\', 'u', '0', '0', hexCh (c.toNat / 16), hexCh (c.toNat % 16)] := by
                      unfold escapeCh
                      rw [if_neg h1, if_neg h2, if_neg h3, if_neg h4, if_neg h5, if_neg h6,
                        if_neg h7, if_pos h8]
                    rw [hesc]
                    simp only [List.cons_append, List.nil_append]
                    rw [show ∀ tail, parseStrBody (fuel + 1) ('\\' :: 'u' :: tail) =
                        match parseHex4 tail with
                        | some (u, rest3) =>
                          match parseStrBody fuel rest3 with
                          | some (s2, r) => some (u :: s2, r)
                          | none => none
                        | none => none from fun _ => rfl]
                    have hh1 := hexCh_lemmas (c.toNat / 16) (by omega)
                    have hh2 := hexCh_lemmas (c.toNat % 16) (by omega)
                    have hhex : parseHex4 ('0' :: '0' :: hexCh (c.toNat / 16) ::
                        hexCh (c.toNat % 16) :: (encStrBody cs ++ rest)) =
                        some (c, encStrBody cs ++ rest) := by
                      have hv : ((hexVal '0' * 16 + hexVal '0') * 16 +
                          hexVal (hexCh (c.toNat / 16))) * 16 + hexVal (hexCh (c.toNat % 16))
                          = c.toNat := by
                        rw [hh1.2, hh2.2, show hexVal '0' = 0 from rfl]
                        omega
                      simp [parseHex4, show isHexCh '0' = true from rfl, hh1.1, hh2.1, hv,
                        Char.ofNat_toNat]
                    rw [hhex]
                    show (match parseStrBody fuel (encStrBody cs ++ rest) with
                          | some (s2, r) => some (c :: s2, r)
                          | none => none) = some (c :: cs, rest)
                    rw [hrec]
                  · -- verbatim character
                    have hesc : escapeCh c = [c] := by
                      unfold escapeCh
                      rw [if_neg h1, if_neg h2, if_neg h3, if_neg h4, if_neg h5, if_neg h6,
                        if_neg h7, if_neg h8]
                    rw [hesc, List.singleton_append]
                    have hred : parseStrBody (fuel + 1) (c :: (encStrBody cs ++ rest)) =
                        match parseStrBody fuel (encStrBody cs ++ rest) with
                        | some (s2, r) => some (c :: s2, r)
                        | none => none := by
                      simp only [parseStrBody, if_neg h1, if_neg h2]
                    rw [hred, hrec]

/-! ## Round-trip lemmas: values -/

theorem isDigitCh_ne (c : Char) (hc : isDigitCh c = true) :
    c ≠ 'n' ∧ c ≠ 't' ∧ c ≠ 'f' ∧ c ≠ '"' ∧ c ≠ '-' ∧ c ≠ '[' ∧ c ≠ '\x7b' ∧
      c ≠ ']' ∧ c ≠ '\x7d' := by
  refine ⟨?_, ?_, ?_, ?_, ?_, ?_, ?_, ?_, ?_⟩ <;>
    · intro h
      rw [h] at hc
      exact absurd hc (by decide)

theorem encVal_head (v : JsVal) :
    ∃ c cs, encVal v = c :: cs ∧ c ≠ ']' ∧ c ≠ '\x7d' := by
  cases v with
  | jnull => exact ⟨'n', ['u', 'l', 'l'], rfl, by decide, by decide⟩
  | jbool b =>
    cases b with
    | false => exact ⟨'f', ['a', 'l', 's', 'e'], rfl, by decide, by decide⟩
    | true => exact ⟨'t', ['r', 'u', 'e'], rfl, by decide, by decide⟩
  | jnum m =>
    by_cases hm : m < 0
    · exact ⟨'-', natDigits (-m).toNat, by simp [encVal, encInt, hm], by decide, by decide⟩
    · obtain ⟨c, cs, hcons, hdig⟩ := natDigits_head m.toNat
      obtain ⟨_, _, _, _, _, _, _, hne8, hne9⟩ := isDigitCh_ne c hdig
      exact ⟨c, cs, by simp [encVal, encInt, hm, hcons], hne8, hne9⟩
  | jstr s => exact ⟨'"', encStrBody s, rfl, by decide, by decide⟩
  | jarr xs => exact ⟨'[', encItemsA xs, by simp [encVal], by decide, by decide⟩
  | jobj fs => exact ⟨'\x7b', encItemsO fs, by simp [encVal], by decide, by decide⟩

theorem encVal_length_pos (v : JsVal) : 0 < (encVal v).length := by
  obtain ⟨c, cs, hcons, _, _⟩ := encVal_head v
  simp [hcons]

theorem parseItemsA_enc (B : Nat)
    (Hel : ∀ w, sizeV w ≤ B → ∀ fuel rest, (encVal w).length < fuel →
      digitStart rest = false → parseVal fuel (encVal w ++ rest) = some (w, rest)) :
    ∀ xs : List JsVal, xs ≠ [] → sizeL xs ≤ B →
      ∀ fuel rest, (encItemsA xs).length < fuel →
        parseItemsA fuel (encItemsA xs ++ rest) = some (xs, rest) := by
  intro xs
  induction xs with
  | nil => intro h; exact absurd rfl h
  | cons v vs ih =>
    intro _ hsize fuel rest hfuel
    have hv : sizeV v ≤ B := by
      simp only [sizeL] at hsize
      omega
    cases fuel with
    | zero => simp at hfuel
    | succ fuel =>
      cases vs with
      | nil =>
        have henc : encItemsA [v] = encVal v ++ [']'] := by simp [encItemsA]
        rw [henc] at hfuel ⊢
        rw [List.append_assoc, List.singleton_append]
        have hval : parseVal fuel (encVal v ++ (']' :: rest)) = some (v, ']' :: rest) := by
          apply Hel v hv fuel (']' :: rest) ?_ rfl
          simp only [List.length_append, List.length_cons, List.length_nil] at hfuel
          omega
        simp [parseItemsA, hval]
      | cons w ws =>
        have henc : encItemsA (v :: w :: ws) = encVal v ++ ',' :: encItemsA (w :: ws) := by
          simp [encItemsA]
        rw [henc] at hfuel ⊢
        rw [List.append_assoc, List.cons_append]
        have hpos := encVal_length_pos v
        have hlen2 : (encItemsA (w :: ws)).length < fuel := by
          simp only [List.length_append, List.length_cons] at hfuel
          omega
        have hval : parseVal fuel (encVal v ++ (',' :: (encItemsA (w :: ws) ++ rest))) =
            some (v, ',' :: (encItemsA (w :: ws) ++ rest)) := by
          apply Hel v hv fuel (',' :: (encItemsA (w :: ws) ++ rest)) ?_ rfl
          simp only [List.length_append, List.length_cons] at hfuel
          omega
        have hrec : parseItemsA fuel (encItemsA (w :: ws) ++ rest) =
            some (w :: ws, rest) := by
          apply ih (by simp) ?_ fuel rest hlen2
          simp only [sizeL] at hsize ⊢
          omega
        simp [parseItemsA, hval, hrec]

theorem parseItemsO_enc (B : Nat)
    (Hel : ∀ w, sizeV w ≤ B → ∀ fuel rest, (encVal w).length < fuel →
      digitStart rest = false → parseVal fuel (encVal w ++ rest) = some (w, rest)) :
    ∀ fs : List (List Char × JsVal), fs ≠ [] → sizeF fs ≤ B →
      ∀ fuel rest, (encItemsO fs).length < fuel →
        parseItemsO fuel (encItemsO fs ++ rest) = some (fs, rest) := by
  intro fs
  induction fs with
  | nil => intro h; exact absurd rfl h
  | cons kv fs2 ih =>
    obtain ⟨k, v⟩ := kv
    intro _ hsize fuel rest hfuel
    have hv : sizeV v ≤ B := by
      simp only [sizeF] at hsize
      omega
    cases fuel with
    | zero => simp at hfuel
    | succ fuel =>
      cases fs2 with
      | nil =>
        have henc : encItemsO [(k, v)] = ('"' :: encStrBody k) ++ ':' :: encVal v ++ ['\x7d'] := by
          simp [encItemsO, encStr]
        rw [henc] at hfuel ⊢
        simp only [List.cons_append, List.append_assoc, List.singleton_append,
          List.nil_append]
        have hkey : parseStr (encStrBody k ++ (':' :: (encVal v ++ ('\x7d' :: rest)))) =
            some (k, ':' :: (encVal v ++ ('\x7d' :: rest))) := by
          unfold parseStr
          apply parseStrBody_enc
          have := length_lt_encStrBody k
          simp only [List.length_append, List.length_cons]
          omega
        have hval : parseVal fuel (encVal v ++ ('\x7d' :: rest)) =
            some (v, '\x7d' :: rest) := by
          apply Hel v hv fuel ('\x7d' :: rest) ?_ rfl
          simp only [List.length_append, List.length_cons, List.length_nil] at hfuel
          omega
        simp [parseItemsO, hkey, hval]
      | cons kv2 fs3 =>
        have henc : encItemsO ((k, v) :: kv2 :: fs3) =
            ('"' :: encStrBody k) ++ ':' :: encVal v ++ ',' :: encItemsO (kv2 :: fs3) := by
          simp [encItemsO, encStr]
        rw [henc] at hfuel ⊢
        simp only [List.cons_append, List.append_assoc, List.nil_append]
        have hpos := encVal_length_pos v
        have hlen2 : (encItemsO (kv2 :: fs3)).length < fuel := by
          simp only [List.length_append, List.length_cons] at hfuel
          omega
        have hkey : parseStr (encStrBody k ++
              (':' :: (encVal v ++ (',' :: (encItemsO (kv2 :: fs3) ++ rest))))) =
            some (k, ':' :: (encVal v ++ (',' :: (encItemsO (kv2 :: fs3) ++ rest)))) := by
          unfold parseStr
          apply parseStrBody_enc
          have := length_lt_encStrBody k
          simp only [List.length_append, List.length_cons]
          omega
        have hval : parseVal fuel (encVal v ++ (',' :: (encItemsO (kv2 :: fs3) ++ rest))) =
            some (v, ',' :: (encItemsO (kv2 :: fs3) ++ rest)) := by
          apply Hel v hv fuel (',' :: (encItemsO (kv2 :: fs3) ++ rest)) ?_ rfl
          simp only [List.length_append, List.length_cons] at hfuel
          omega
        have hrec : parseItemsO fuel (encItemsO (kv2 :: fs3) ++ rest) =
            some (kv2 :: fs3, rest) := by
          apply ih (by simp) ?_ fuel rest hlen2
          simp only [sizeF] at hsize ⊢
          omega
        simp [parseItemsO, hkey, hval, hrec]

theorem parseVal_enc_main : ∀ B : Nat, ∀ v : JsVal, sizeV v ≤ B →
    ∀ fuel rest, (encVal v).length < fuel → digitStart rest = false →
      parseVal fuel (encVal v ++ rest) = some (v, rest) := by
  intro B
  induction B using Nat.strong_induction_on with
  | _ B IH =>
    intro v hsize fuel rest hfuel hrest
    cases fuel with
    | zero => omega
    | succ fuel =>
      cases v with
      | jnull => exact rfl
      | jbool b => cases b <;> rfl
      | jnum m =>
        by_cases hm : m < 0
        · have henc : encVal (.jnum m) = '-' :: natDigits (-m).toNat := by
            simp [encVal, encInt, hm]
          rw [henc, List.cons_append]
          rw [show ∀ tail, parseVal (fuel + 1) ('-' :: tail) =
              match parseNat tail with
              | some (n, r) => some (.jnum (-(n : Int)), r)
              | none => none from fun _ => rfl]
          rw [parseNat_natDigits _ _ hrest]
          have : (((-m).toNat : Int)) = -m := Int.toNat_of_nonneg (by omega)
          simp [this]
        · have henc : encVal (.jnum m) = natDigits m.toNat := by
            simp [encVal, encInt, hm]
          rw [henc]
          obtain ⟨c, cs2, hcons, hdig⟩ := natDigits_head m.toNat
          rw [hcons, List.cons_append]
          obtain ⟨hn1, hn2, hn3, hn4, hn5, hn6, hn7, _, _⟩ := isDigitCh_ne c hdig
          have hred : parseVal (fuel + 1) (c :: (cs2 ++ rest)) =
              match parseNat (c :: (cs2 ++ rest)) with
              | some (n, r) => some (.jnum (n : Int), r)
              | none => none := by
            simp only [parseVal, if_neg hn1, if_neg hn2, if_neg hn3, if_neg hn4,
              if_neg hn5, if_neg hn6, if_neg hn7]
          rw [hred, ← List.cons_append, ← hcons, parseNat_natDigits _ _ hrest]
          have : ((m.toNat : Int)) = m := Int.toNat_of_nonneg (by omega)
          simp [this]
      | jstr s =>
        have henc : encVal (.jstr s) = '"' :: encStrBody s := rfl
        rw [henc, List.cons_append]
        rw [show ∀ tail, parseVal (fuel + 1) ('"' :: tail) =
            match parseStr tail with
            | some (s2, r) => some (.jstr s2, r)
            | none => none from fun _ => rfl]
        have hstr : parseStr (encStrBody s ++ rest) = some (s, rest) := by
          unfold parseStr
          apply parseStrBody_enc
          have := length_lt_encStrBody s
          simp only [List.length_append]
          omega
        rw [hstr]
      | jarr xs =>
        cases xs with
        | nil => exact rfl
        | cons y ys =>
          have hB : 1 ≤ B ∧ sizeL (y :: ys) ≤ B - 1 := by
            simp only [sizeV] at hsize
            omega
          have hHel : ∀ w, sizeV w ≤ B - 1 → ∀ fuel2 rest2, (encVal w).length < fuel2 →
              digitStart rest2 = false →
              parseVal fuel2 (encVal w ++ rest2) = some (w, rest2) :=
            IH (B - 1) (by omega)
          have henc : encVal (.jarr (y :: ys)) = '[' :: encItemsA (y :: ys) := by
            simp [encVal]
          rw [henc] at hfuel ⊢
          rw [List.cons_append]
          have hhead : ∃ c cs, encItemsA (y :: ys) = c :: cs ∧ c ≠ ']' ∧ c ≠ '\x7d' := by
            obtain ⟨c, cs2, hcons, h1, h2⟩ := encVal_head y
            cases ys with
            | nil =>
              exact ⟨c, cs2 ++ [']'], by simp [encItemsA, hcons], h1, h2⟩
            | cons z zs =>
              exact ⟨c, cs2 ++ ',' :: encItemsA (z :: zs), by simp [encItemsA, hcons], h1, h2⟩
          obtain ⟨c, cs2, hcons, hc1, _⟩ := hhead
          have hfalse : headIs ']' (encItemsA (y :: ys) ++ rest) = false := by
            rw [hcons, List.cons_append]
            simp [headIs, hc1]
          have hItems : parseItemsA fuel (encItemsA (y :: ys) ++ rest) =
              some (y :: ys, rest) := by
            apply parseItemsA_enc (B - 1) hHel (y :: ys) (by simp) hB.2 fuel rest
            simp only [List.length_cons] at hfuel
            omega
          simp [parseVal, hfalse, hItems]
      | jobj fs =>
        cases fs with
        | nil => exact rfl
        | cons kv fs2 =>
          have hB : 1 ≤ B ∧ sizeF (kv :: fs2) ≤ B - 1 := by
            simp only [sizeV] at hsize
            omega
          have hHel : ∀ w, sizeV w ≤ B - 1 → ∀ fuel2 rest2, (encVal w).length < fuel2 →
              digitStart rest2 = false →
              parseVal fuel2 (encVal w ++ rest2) = some (w, rest2) :=
            IH (B - 1) (by omega)
          have henc : encVal (.jobj (kv :: fs2)) = '\x7b' :: encItemsO (kv :: fs2) := by
            simp [encVal]
          rw [henc] at hfuel ⊢
          rw [List.cons_append]
          obtain ⟨k, v⟩ := kv
          have hfalse : headIs '\x7d' (encItemsO ((k, v) :: fs2) ++ rest) = false := by
            cases fs2 with
            | nil =>
              rw [show encItemsO [(k, v)] = '"' :: (encStrBody k ++ ':' :: encVal v ++ ['\x7d'])
                from by simp [encItemsO, encStr], List.cons_append]
              simp [headIs]
            | cons kv2 fs3 =>
              rw [show encItemsO ((k, v) :: kv2 :: fs3) =
                  '"' :: (encStrBody k ++ ':' :: encVal v ++ ',' :: encItemsO (kv2 :: fs3))
                from by simp [encItemsO, encStr], List.cons_append]
              simp [headIs]
          have hItems : parseItemsO fuel (encItemsO ((k, v) :: fs2) ++ rest) =
              some ((k, v) :: fs2, rest) := by
            apply parseItemsO_enc (B - 1) hHel ((k, v) :: fs2) (by simp) hB.2 fuel rest
            simp only [List.length_cons] at hfuel
            omega
          simp [parseVal, hfalse, hItems]

theorem parseVal_encVal (v : JsVal) (fuel : Nat) (rest : List Char)
    (hfuel : (encVal v).length < fuel) (hrest : digitStart rest = false) :
    parseVal fuel (encVal v ++ rest) = some (v, rest) :=
  parseVal_enc_main (sizeV v) v le_rfl fuel rest hfuel hrest

/-- C8: standard interchange-format decoding of `encodeToText(v)` (that is,
`JSON.parse` of `JSON.stringify(v)`) yields `v` itself, for every acyclic
value composed of numbers, strings, booleans, null, arrays and plain
objects. -/
theorem json_roundtrip : ∀ v : JsVal, jsonParse (getJSONTree v) = some v := by
  intro v
  unfold jsonParse getJSONTree
  have h : parseVal ((encVal v).length + 1) (encVal v ++ []) = some (v, []) :=
    parseVal_encVal v _ _ (by omega) rfl
  rw [List.append_nil] at h
  rw [h]

/-! ## Lemmas about the field overlay of `fromJSON` -/

theorem lookupF_setField_self (fs : JFields) (k : List Char) (v : JsVal) :
    lookupF (setField fs k v) k = some v := by
  induction fs with
  | nil => simp [setField, lookupF]
  | cons kv fs ih =>
    obtain ⟨k0, v0⟩ := kv
    by_cases h : k0 = k
    · simp [setField, h, lookupF]
    · simp [setField, h, lookupF, ih]

theorem lookupF_setField_ne (fs : JFields) (k k2 : List Char) (v : JsVal)
    (h : k2 ≠ k) :
    lookupF (setField fs k v) k2 = lookupF fs k2 := by
  induction fs with
  | nil => simp [setField, lookupF, Ne.symm h]
  | cons kv fs ih =>
    obtain ⟨k0, v0⟩ := kv
    by_cases h0 : k0 = k
    · subst h0
      simp [setField, lookupF, Ne.symm h]
    · by_cases h2 : k0 = k2
      · simp [setField, h0, lookupF, h2, h]
      · simp [setField, h0, lookupF, h2, ih]

theorem lookupF_objAssign_not_mem (t src : JFields) (k : List Char)
    (h : k ∉ src.map Prod.fst) :
    lookupF (objAssign t src) k = lookupF t k := by
  induction src generalizing t with
  | nil => rfl
  | cons kv src ih =>
    obtain ⟨k0, v0⟩ := kv
    simp only [List.map_cons, List.mem_cons, not_or] at h
    show lookupF (objAssign (setField t k0 v0) src) k = lookupF t k
    rw [ih (setField t k0 v0) h.2, lookupF_setField_ne _ _ _ _ h.1]

theorem lookupF_objAssign_mem (t src : JFields) (k : List Char)
    (hnd : (src.map Prod.fst).Nodup) (h : k ∈ src.map Prod.fst) :
    lookupF (objAssign t src) k = lookupF src k := by
  induction src generalizing t with
  | nil => simp at h
  | cons kv src ih =>
    obtain ⟨k0, v0⟩ := kv
    simp only [List.map_cons, List.nodup_cons] at hnd
    show lookupF (objAssign (setField t k0 v0) src) k = lookupF ((k0, v0) :: src) k
    by_cases hk : k = k0
    · subst hk
      rw [lookupF_objAssign_not_mem _ _ _ hnd.1, lookupF_setField_self]
      simp [lookupF]
    · simp only [List.map_cons, List.mem_cons] at h
      rcases h with h | h
      · exact absurd h hk
      · rw [ih (setField t k0 v0) hnd.2 h]
        simp [lookupF, Ne.symm hk]

/-! ## Theorems for the JSON claims -/

/-- C6 counterexample: the template kind default-constructs a field `r = 1`;
decoding the well-formed text for the object with single field `x = 2` yields
a value that still carries the default field `r`, so its enumerable fields
are not exactly the fields of the parsed tree. -/
theorem fromJSON_c6_counterexample :
    jsonParse c6text = some (.jobj [(['x'], .jnum 2)])
    ∧ fromJSON c6defaults c6text = some [(['r'], .jnum 1), (['x'], .jnum 2)]
    ∧ ['r'] ∈ ([(['r'], JsVal.jnum 1), (['x'], JsVal.jnum 2)].map Prod.fst)
    ∧ ['r'] ∉ ([(['x'], JsVal.jnum 2)].map Prod.fst) :=
  ⟨rfl, rfl, by decide, by decide⟩

/-- C6 (amended): `decodeFromText(template, text)` overlays the parsed fields
onto the template kind's default-constructed fields: every field named in the
text holds its parsed value on the result, while default-initialized fields
absent from the parsed text remain with their default values. -/
theorem fromJSON_overlay (defaults : JFields) (text : List Char) (pf : JFields)
    (hparse : jsonParse text = some (.jobj pf)) :
    fromJSON defaults text = some (objAssign defaults pf)
    ∧ (∀ k, k ∉ pf.map Prod.fst →
        lookupF (objAssign defaults pf) k = lookupF defaults k)
    ∧ ((pf.map Prod.fst).Nodup → ∀ k, k ∈ pf.map Prod.fst →
        lookupF (objAssign defaults pf) k = lookupF pf k) := by
  refine ⟨?_, ?_, ?_⟩
  · unfold fromJSON
    rw [hparse]
  · intro k hk
    exact lookupF_objAssign_not_mem defaults pf k hk
  · intro hnd k hk
    exact lookupF_objAssign_mem defaults pf k hnd hk

/-! ## Lemmas about the object-graph serializer (claim C7) -/

theorem lookupH_some_mem : ∀ (h : JHeap) (a : Nat) (n : HNode),
    lookupH h a = some n → a ∈ h.map Prod.fst := by
  intro h
  induction h with
  | nil => intro a n hl; exact Option.noConfusion hl
  | cons p h ih =>
    intro a n hl
    obtain ⟨a0, n0⟩ := p
    simp only [lookupH] at hl
    by_cases ha : a0 = a
    · simp [ha]
    · rw [if_neg ha] at hl
      simp [ih a n hl]

theorem serArr_ok_elem (h : JHeap) (fuel : Nat) (stack : List Nat) :
    ∀ (es : List Ref) (parts : List (List Char)),
      serArr h fuel stack es = .ok parts →
      ∀ r ∈ es, ∃ res, serRef h fuel stack r = .ok res := by
  intro es
  induction es with
  | nil =>
    intro parts _ r hr
    simp at hr
  | cons r0 rs ih =>
    intro parts hok r hr
    simp only [serArr] at hok
    cases hs : serRef h fuel stack r0 with
    | error e =>
      rw [hs] at hok
      simp at hok
    | ok o =>
      rw [hs] at hok
      rcases List.mem_cons.mp hr with rfl | hr2
      · exact ⟨o, hs⟩
      · cases o with
        | none =>
          cases ht : serArr h fuel stack rs with
          | error e => rw [ht] at hok; simp at hok
          | ok parts2 => exact ih parts2 ht r hr2
        | some cs =>
          cases ht : serArr h fuel stack rs with
          | error e => rw [ht] at hok; simp at hok
          | ok parts2 => exact ih parts2 ht r hr2

theorem serFields_ok_elem (h : JHeap) (fuel : Nat) (stack : List Nat) :
    ∀ (fs : List (List Char × Ref)) (parts : List (List Char)),
      serFields h fuel stack fs = .ok parts →
      ∀ r ∈ fs.map Prod.snd, ∃ res, serRef h fuel stack r = .ok res := by
  intro fs
  induction fs with
  | nil =>
    intro parts _ r hr
    simp at hr
  | cons kv rs ih =>
    intro parts hok r hr
    obtain ⟨k0, r0⟩ := kv
    simp only [serFields] at hok
    cases hs : serRef h fuel stack r0 with
    | error e =>
      rw [hs] at hok
      simp at hok
    | ok o =>
      rw [hs] at hok
      simp only [List.map_cons, List.mem_cons] at hr
      rcases hr with rfl | hr2
      · exact ⟨o, hs⟩
      · cases o with
        | none => exact ih parts hok r hr2
        | some cs =>
          cases ht : serFields h fuel stack rs with
          | error e => rw [ht] at hok; simp at hok
          | ok parts2 => exact ih parts2 ht r hr2

theorem serRef_ok_no_cycle (h : JHeap) : ∀ fuel : Nat, ∀ (stack : List Nat)
    (a0 : Nat) (res : Option (List Char)),
    serRef h fuel stack (Ref.rptr a0) = .ok res →
    ∀ b, ReachA h a0 b →
      b ∉ stack ∧ ¬(∃ c, edgeTo h b c ∧ ReachA h c b) := by
  intro fuel
  induction fuel with
  | zero =>
    intro stack a0 res hok b hreach
    rw [serRef.eq_def] at hok
    by_cases ha : a0 ∈ stack
    · simp [ha] at hok
    · simp [ha] at hok
  | succ fuel ih =>
    intro stack a0 res hok b hreach
    rw [serRef.eq_def] at hok
    by_cases ha : a0 ∈ stack
    · simp [ha] at hok
    · simp only [ha, if_false, ite_false] at hok
      cases hl : lookupH h a0 with
      | none =>
        cases hreach with
        | refl =>
          refine ⟨ha, ?_⟩
          rintro ⟨c, ⟨n, hln, _⟩, _⟩
          rw [hl] at hln
          exact Option.noConfusion hln
        | step hedge hrest =>
          obtain ⟨n, hln, _⟩ := hedge
          rw [hl] at hln
          exact Option.noConfusion hln
      | some node =>
        rw [hl] at hok
        have hch : ∀ c, Ref.rptr c ∈ nodeRefs node →
            ∃ res2, serRef h fuel (a0 :: stack) (Ref.rptr c) = .ok res2 := by
          cases node with
          | harr es =>
            intro c hc
            cases hsa : serArr h fuel (a0 :: stack) es with
            | error e => simp [hsa] at hok
            | ok parts =>
              exact serArr_ok_elem h fuel (a0 :: stack) es parts hsa _ hc
          | hobj fs =>
            intro c hc
            cases hsa : serFields h fuel (a0 :: stack) fs with
            | error e => simp [hsa] at hok
            | ok parts =>
              exact serFields_ok_elem h fuel (a0 :: stack) fs parts hsa _ hc
        cases hreach with
        | refl =>
          refine ⟨ha, ?_⟩
          rintro ⟨c, ⟨n, hln, hmem⟩, hcyc⟩
          rw [hl] at hln
          injection hln with hn
          subst hn
          obtain ⟨res2, hok2⟩ := hch c hmem
          have hcon := ih (a0 :: stack) c res2 hok2 a0 hcyc
          exact hcon.1 (List.mem_cons_self a0 stack)
        | step hedge hrest =>
          obtain ⟨n, hln, hmem⟩ := hedge
          rw [hl] at hln
          injection hln with hn
          subst hn
          obtain ⟨res2, hok2⟩ := hch _ hmem
          have hres := ih (a0 :: stack) _ res2 hok2 b hrest
          exact ⟨fun hb => hres.1 (List.mem_cons_of_mem a0 hb), hres.2⟩

theorem ser_no_fuelOut (h : JHeap) : ∀ fuel : Nat, ∀ stack : List Nat,
    stack.Nodup → (∀ s ∈ stack, s ∈ h.map Prod.fst) →
    h.length + 1 ≤ fuel + stack.length →
    (∀ r : Ref, serRef h fuel stack r ≠ .error SErr.fuelOut)
    ∧ (∀ es : List Ref, serArr h fuel stack es ≠ .error SErr.fuelOut)
    ∧ (∀ fs : List (List Char × Ref),
        serFields h fuel stack fs ≠ .error SErr.fuelOut) := by
  intro fuel
  induction fuel using Nat.strong_induction_on with
  | _ fuel IH =>
    intro stack hnd hdom harith
    have hstack : stack.length ≤ h.length := by
      have hsub : stack ⊆ h.map Prod.fst := hdom
      have hlen := (List.subperm_of_subset hnd hsub).length_le
      simpa using hlen
    have hserRef : ∀ r : Ref, serRef h fuel stack r ≠ .error SErr.fuelOut := by
      intro r
      cases r with
      | rnull => simp [serRef]
      | rbool b => cases b <;> simp [serRef]
      | rnum n => simp [serRef]
      | rstr s => simp [serRef]
      | rfunc => simp [serRef]
      | rundef => simp [serRef]
      | rptr a =>
        rw [serRef.eq_def]
        by_cases ha : a ∈ stack
        · simp [ha]
        · simp only [ha, if_false, ite_false]
          cases fuel with
          | zero =>
            intro _
            omega
          | succ fuel =>
            cases hl : lookupH h a with
            | none => simp
            | some node =>
              have hdom2 : ∀ s ∈ a :: stack, s ∈ h.map Prod.fst := by
                intro s hs
                rcases List.mem_cons.mp hs with rfl | hs2
                · exact lookupH_some_mem h s node hl
                · exact hdom s hs2
              have hIH := IH fuel (by omega) (a :: stack)
                (List.nodup_cons.mpr ⟨ha, hnd⟩) hdom2
                (by simp only [List.length_cons]; omega)
              cases node with
              | harr es =>
                have hA := hIH.2.1 es
                cases hsa : serArr h fuel (a :: stack) es with
                | ok parts => simp [hsa]
                | error e =>
                  cases e with
                  | cyclic => simp [hsa]
                  | fuelOut => exact absurd hsa hA
              | hobj fs =>
                have hF := hIH.2.2 fs
                cases hsa : serFields h fuel (a :: stack) fs with
                | ok parts => simp [hsa]
                | error e =>
                  cases e with
                  | cyclic => simp [hsa]
                  | fuelOut => exact absurd hsa hF
    refine ⟨hserRef, ?_, ?_⟩
    · intro es
      induction es with
      | nil => simp [serArr]
      | cons r rs ihes =>
        simp only [serArr]
        cases hs : serRef h fuel stack r with
        | error e =>
          cases e with
          | cyclic => simp
          | fuelOut => exact absurd hs (hserRef r)
        | ok o =>
          cases o with
          | none =>
            cases ht : serArr h fuel stack rs with
            | ok parts => simp
            | error e =>
              cases e with
              | cyclic => simp
              | fuelOut => exact absurd ht ihes
          | some cs =>
            cases ht : serArr h fuel stack rs with
            | ok parts => simp
            | error e =>
              cases e with
              | cyclic => simp
              | fuelOut => exact absurd ht ihes
    · intro fs
      induction fs with
      | nil => simp [serFields]
      | cons kv rs ihfs =>
        obtain ⟨k0, r0⟩ := kv
        simp only [serFields]
        cases hs : serRef h fuel stack r0 with
        | error e =>
          cases e with
          | cyclic => simp
          | fuelOut => exact absurd hs (hserRef r0)
        | ok o =>
          cases o with
          | none => exact ihfs
          | some cs =>
            cases ht : serFields h fuel stack rs with
            | ok parts => simp
            | error e =>
              cases e with
              | cyclic => simp
              | fuelOut => exact absurd ht ihfs

/-- C7 counterexample: the claim says a top-level non-representable value (a
function) makes `encodeToText` raise rather than return a non-string; the
code (`JSON.stringify`) instead returns `undefined` — a non-string result —
and raises nothing. -/
theorem getJSON_func_counterexample :
    getJSON [] Ref.rfunc = .ok none
    ∧ ∀ e : SErr, getJSON [] Ref.rfunc ≠ .error e := by
  have h : getJSON [] Ref.rfunc = .ok none := by
    unfold getJSON
    simp [serRef]
  exact ⟨h, fun e he => by rw [h] at he; exact Except.noConfusion he⟩

/-- C7 (amended): `encodeToText` fails (the cycle `TypeError`, the spec's
`EncodeError`) whenever the value contains a cyclic reference; for a
non-representable top-level value (a function or `undefined`) it instead
returns `undefined` — a non-string result — without raising. -/
theorem getJSON_cycle_or_undef :
    (∀ (h : JHeap) (r : Ref), HasCycle h r → getJSON h r = .error SErr.cyclic)
    ∧ (∀ h : JHeap,
        getJSON h Ref.rfunc = .ok none ∧ getJSON h Ref.rundef = .ok none) := by
  constructor
  · intro h r hc
    obtain ⟨a0, a, b, hr, hreach, hedge, hback⟩ := hc
    subst hr
    unfold getJSON
    cases hres : serRef h (h.length + 1) [] (Ref.rptr a0) with
    | ok res =>
      exfalso
      have hno := serRef_ok_no_cycle h (h.length + 1) [] a0 res hres a hreach
      exact hno.2 ⟨b, hedge, hback⟩
    | error e =>
      cases e with
      | cyclic => rfl
      | fuelOut =>
        have hfo := (ser_no_fuelOut h (h.length + 1) [] (by simp) (by simp)
          (by simp)).1 (Ref.rptr a0)
        exact absurd hres hfo
  · intro h
    constructor <;>
      · unfold getJSON
        simp [serRef]

/-- Witness for `getJSON_cycle_or_undef`: the one-object heap whose object
refers to itself. -/
theorem getJSON_cycle_or_undef_witness :
    getJSON cycHeap (Ref.rptr 0) = .error SErr.cyclic :=
  getJSON_cycle_or_undef.1 cycHeap (Ref.rptr 0)
    ⟨0, 0, 0, rfl, ReachA.refl 0,
      ⟨HNode.hobj [(['s'], Ref.rptr 0)], rfl, by simp [nodeRefs]⟩, ReachA.refl 0⟩

/-- Witness for `fromJSON_overlay` at the concrete template and text of the
counterexample. -/
theorem fromJSON_overlay_witness :
    fromJSON c6defaults c6text = some (objAssign c6defaults [(['x'], JsVal.jnum 2)])
    ∧ (∀ k, k ∉ ([(['x'], JsVal.jnum 2)].map Prod.fst) →
        lookupF (objAssign c6defaults [(['x'], JsVal.jnum 2)]) k = lookupF c6defaults k)
    ∧ ((([(['x'], JsVal.jnum 2)].map Prod.fst).Nodup) →
        ∀ k, k ∈ ([(['x'], JsVal.jnum 2)].map Prod.fst) →
        lookupF (objAssign c6defaults [(['x'], JsVal.jnum 2)]) k =
          lookupF [(['x'], JsVal.jnum 2)] k) :=
  fromJSON_overlay c6defaults c6text [(['x'], JsVal.jnum 2)] rfl

end CoreJs
